import Mathlib

/-!
Shallow embedding of the weak-IV Monte Carlo simulation engine
(`services/simulation.ts` of the repository) and verification of the
specification's claims about it.

Modelling conventions:
* JavaScript numbers are embedded as `ℚ`.  Division by zero in `ℚ` yields `0`
  (where JavaScript would yield `NaN`/`Infinity`); every place where this
  matters is noted at the theorem concerned.
* The transcendental functions `Math.sqrt`, `Math.log`, `Math.cos`,
  `Math.sin` and the constant `Math.PI` are opaque parameters of the model,
  collected in the structure `Analytic`; no claim depends on their values.
* The 32-bit bitwise semantics of the Mulberry32 generator is embedded with
  `ℕ` arithmetic and explicit reductions modulo `2 ^ 32`.
* The `AbortSignal` of `runMonteCarloAsync` is modelled as a function
  `aborted : ℕ → Bool` giving the value of `signal.aborted` observed at the
  check performed at the top of loop iteration `r`.  The `checkPause`
  callback neither touches the RNG nor produces data, so it contributes only
  a trace event.
* `runMonteCarloAsync` additionally returns a trace of the observable
  scheduling events (abort checks, yield/pause checkpoints, completed
  replications) so that temporal claims about the loop can be stated.
-/

namespace WeakIV

/-- Opaque analytic primitives used by the Box-Muller transform in the
source (`Math.sqrt`, `Math.log`, `Math.cos`, `Math.sin`, `Math.PI`). -/
structure Analytic where
  sqrt : ℚ → ℚ
  log : ℚ → ℚ
  cos : ℚ → ℚ
  sin : ℚ → ℚ
  pi : ℚ

/-- `SimulationParams` of `types.ts`. -/
structure SimulationParams where
  sampleSize : ℕ
  replications : ℕ
  ivStrength : ℚ
  endogeneity : ℚ
  betaTrue : ℚ
  seed : ℕ
deriving DecidableEq, Repr

/-- `SimulationResult` of `types.ts`. -/
structure SimulationResult where
  olsEstimates : List ℚ
  ivEstimates : List ℚ
  fStats : List ℚ
  olsBias : ℚ
  ivBias : ℚ
  olsVariance : ℚ
  ivVariance : ℚ
deriving DecidableEq, Repr

/-- `BinData` of `types.ts`. -/
structure BinData where
  rangeStart : ℚ
  rangeEnd : ℚ
  olsFrequency : ℚ
  ivFrequency : ℚ
  midpoint : ℚ
deriving DecidableEq, Repr

/-- `2 ^ 32`, the modulus of all JavaScript 32-bit bitwise operations. -/
def UINT32MOD : ℕ := 4294967296

/-- `Math.imul`: 32-bit multiplication (bit-pattern semantics). -/
def imul (a b : ℕ) : ℕ := a * b % UINT32MOD

/-- `SeededRNG` (Mulberry32).  The JavaScript field `state` is a double that
stays an exact integer, so it is embedded as `ℕ`; every bitwise use in
`next` reduces it modulo `2 ^ 32` exactly as `ToInt32`/`ToUint32` do. -/
structure SeededRNG where
  state : ℕ
deriving DecidableEq, Repr

/-- `SeededRNG.next`: one Mulberry32 step; returns the advanced generator and
a rational in `[0, 1)` (the uint32 result divided by `2 ^ 32`). -/
def SeededRNG.next (rng : SeededRNG) : SeededRNG × ℚ :=
  let s := rng.state + 0x6D2B79F5
  let t0 := s % UINT32MOD
  let t1 := imul (Nat.xor t0 (t0 >>> 15)) (t0 ||| 1)
  let t2 := Nat.xor t1 ((t1 + imul (Nat.xor t1 (t1 >>> 7)) (t1 ||| 61)) % UINT32MOD)
  let t3 := (Nat.xor t2 (t2 >>> 14)) % UINT32MOD
  (⟨s⟩, (t3 : ℚ) / 4294967296)

/-- `generateCorrelatedNormals`: Box-Muller plus Cholesky correlation, looping
`n` times and consuming two RNG draws per iteration.  Returns the pair of
lists `(u, v)` (in source order) together with the advanced generator. -/
def generateCorrelatedNormals (ops : Analytic) (rho : ℚ) :
    ℕ → SeededRNG → (List ℚ × List ℚ) × SeededRNG
  | 0, rng => (([], []), rng)
  | n + 1, rng =>
    let s1 := rng.next
    let s2 := s1.1.next
    let u1 := if s1.2 ≤ 0 then (1 : ℚ) / 10000000 else s1.2
    let u2 := s2.2
    let z1 := ops.sqrt (-2 * ops.log u1) * ops.cos (2 * ops.pi * u2)
    let z2 := ops.sqrt (-2 * ops.log u1) * ops.sin (2 * ops.pi * u2)
    let valV := z1
    let valU := rho * z1 + ops.sqrt (1 - rho * rho) * z2
    let rest := generateCorrelatedNormals ops rho n s2.1
    ((valU :: rest.1.1, valV :: rest.1.2), rest.2)

/-- `mean`: sum divided by length (for the empty list `ℚ` yields `0` where
JavaScript yields `NaN`). -/
def mean (arr : List ℚ) : ℚ := arr.sum / arr.length

/-- `variance`: population variance about the mean. -/
def variance (arr : List ℚ) : ℚ :=
  (arr.map (fun b => (b - mean arr) ^ 2)).sum / arr.length

/-- `estimateOLS`: `cov(x, y) / var(x)` via the centred cross-product sums of
the source, indexing both lists over `0 ≤ i < x.length`. -/
def estimateOLS (x y : List ℚ) : ℚ :=
  let xBar := mean x
  let yBar := mean y
  let num := ((List.range x.length).map
    (fun i => (x.getD i 0 - xBar) * (y.getD i 0 - yBar))).sum
  let den := ((List.range x.length).map
    (fun i => (x.getD i 0 - xBar) * (x.getD i 0 - xBar))).sum
  num / den

/-- `estimateIV`: `cov(z, y) / cov(z, x)` with the `1e-9` guard of the
source returning `0` on a sub-threshold denominator. -/
def estimateIV (x y z : List ℚ) : ℚ :=
  let xBar := mean x
  let yBar := mean y
  let zBar := mean z
  let num := ((List.range x.length).map
    (fun i => (z.getD i 0 - zBar) * (y.getD i 0 - yBar))).sum
  let den := ((List.range x.length).map
    (fun i => (z.getD i 0 - zBar) * (x.getD i 0 - xBar))).sum
  if |den| < 1 / 1000000000 then 0 else num / den

/-- One replication's data generation (lines 144-156 of the driver):
first `generateCorrelatedNormals` call with the configured ρ gives `(u, v)`;
second call with ρ = 0 gives `z` as its first list (second discarded);
`x = π·z + v` and `y = β·x + u` pointwise.  Returns `((z, x, y), rng')`. -/
def makeSample (ops : Analytic) (p : SimulationParams) (rng : SeededRNG) :
    (List ℚ × List ℚ × List ℚ) × SeededRNG :=
  let uv := generateCorrelatedNormals ops p.endogeneity p.sampleSize rng
  let zw := generateCorrelatedNormals ops 0 p.sampleSize uv.2
  let z := zw.1.1
  let x := List.zipWith (fun zi vi => p.ivStrength * zi + vi) z uv.1.2
  let y := List.zipWith (fun xi ui => p.betaTrue * xi + ui) x uv.1.1
  ((z, x, y), zw.2)

/-- The body of one loop iteration (lines 144-175): generate the sample and
compute `(betaOLS, betaIV, fStat)`, threading the RNG. -/
def runReplication (ops : Analytic) (p : SimulationParams) (rng : SeededRNG) :
    (ℚ × ℚ × ℚ) × SeededRNG :=
  let s := makeSample ops p rng
  let z := s.1.1
  let x := s.1.2.1
  let y := s.1.2.2
  let betaOLS := estimateOLS x y
  let betaIV := estimateIV x y z
  let piHat := estimateOLS z x
  let xPred := z.map (fun val => piHat * val)
  let residuals := List.zipWith (fun val pr => val - pr) x xPred
  let ssr := (residuals.map (fun val => val * val)).sum
  let sst := variance x * p.sampleSize
  let rSquared := 1 - ssr / sst
  let fStat := rSquared * ((p.sampleSize : ℚ) - 2) / (1 - rSquared)
  ((betaOLS, betaIV, fStat), s.2)

/-- The only error the driver can throw: `'Simulation Cancelled'`.  The
source performs no configuration validation, so no configuration-error
variant exists. -/
inductive RunError where
  | cancelled
deriving DecidableEq, Repr

/-- Observable scheduling events of one loop iteration `r`: the
`signal.aborted` check, the yield-and-`checkPause` checkpoint, and the
completion of replication `r` (all three estimates appended). -/
inductive Ev where
  | checkAbort : ℕ → Ev
  | yieldPause : ℕ → Ev
  | replicate : ℕ → Ev
deriving DecidableEq, Repr

/-- The replication loop (lines 130-176): at iteration `r` check
`signal.aborted` and throw if set; at `r % batchSize = 0` yield and check the
pause flag; then run the replication and append its three estimates.
`fuel` is the number of iterations remaining (`replications - r`). -/
def runLoop (ops : Analytic) (p : SimulationParams) (aborted : ℕ → Bool)
    (batchSize : ℕ) :
    ℕ → ℕ → SeededRNG → Except RunError (List ℚ × List ℚ × List ℚ) × List Ev
  | _, 0, _ => (Except.ok ([], [], []), [])
  | r, fuel + 1, rng =>
    if aborted r then
      (Except.error RunError.cancelled, [Ev.checkAbort r])
    else
      let yields := if r % batchSize = 0 then [Ev.yieldPause r] else []
      let rep := runReplication ops p rng
      let rest := runLoop ops p aborted batchSize (r + 1) fuel rep.2
      let tr := Ev.checkAbort r :: (yields ++ Ev.replicate r :: rest.2)
      match rest.1 with
      | Except.error e => (Except.error e, tr)
      | Except.ok (ols, iv, fs) =>
        (Except.ok (rep.1.1 :: ols, rep.1.2.1 :: iv, rep.1.2.2 :: fs), tr)

/-- `runMonteCarloAsync` (lines 113-190): seed the RNG from the params, pick
`batchSize = 1` when `sampleSize > 10000` else `10`, run the loop from
`r = 0`, and on completion aggregate bias and variance summaries.  Cancelled
runs carry no partial result.  The event trace is returned alongside. -/
def runMonteCarloAsync (ops : Analytic) (p : SimulationParams)
    (aborted : ℕ → Bool) : Except RunError SimulationResult × List Ev :=
  let batchSize := if p.sampleSize > 10000 then 1 else 10
  let res := runLoop ops p aborted batchSize 0 p.replications ⟨p.seed⟩
  match res.1 with
  | Except.error e => (Except.error e, res.2)
  | Except.ok (ols, iv, fs) =>
    (Except.ok
      { olsEstimates := ols
        ivEstimates := iv
        fStats := fs
        olsBias := mean ols - p.betaTrue
        ivBias := mean iv - p.betaTrue
        olsVariance := variance ols
        ivVariance := variance iv }, res.2)

/-- The merged estimate list of `createHistogramData`, sorted ascending
(source line 196/199: `allValues = [...ols, ...iv]` then `sort`). -/
def histSorted (ols iv : List ℚ) : List ℚ :=
  List.insertionSort (· ≤ ·) (ols ++ iv)

/-- `minVal` of the source (line 200): the element of the sorted merged list
at index `Math.floor(length * 0.02)`.  The nullish fallback
`?? Math.min(...)` is unreachable for a nonempty merged list (the index is
strictly in bounds, proved below), so the model uses `getD` with default
`0`. -/
def histMin (ols iv : List ℚ) : ℚ :=
  (histSorted ols iv).getD ((histSorted ols iv).length * 2 / 100) 0

/-- `maxVal` of the source (line 201): the element at index
`Math.floor(length * 0.98)`; the same remark about the fallback applies. -/
def histMax (ols iv : List ℚ) : ℚ :=
  (histSorted ols iv).getD ((histSorted ols iv).length * 98 / 100) 0

/-- `start` of the source (line 204): the raw minimum padded downward by 10%
of the raw range. -/
def histStart (ols iv : List ℚ) : ℚ :=
  histMin ols iv - (histMax ols iv - histMin ols iv) * (1 / 10)

/-- `end` of the source (line 205): the raw maximum padded upward by 10% of
the raw range. -/
def histStop (ols iv : List ℚ) : ℚ :=
  histMax ols iv + (histMax ols iv - histMin ols iv) * (1 / 10)

/-- `step` of the source (line 206): the padded range divided by the bin
count. -/
def histStep (ols iv : List ℚ) (bins : ℕ) : ℚ :=
  (histStop ols iv - histStart ols iv) / bins

/-- One bin of the source loop (lines 210-225): half-open range
`[start + i*step, start + (i+1)*step)`, counts converted to fractions of
each list's length. -/
def histBin (ols iv : List ℚ) (bins i : ℕ) : BinData :=
  let step := histStep ols iv bins
  let rangeStart := histStart ols iv + i * step
  let rangeEnd := histStart ols iv + (i + 1) * step
  let olsCount := (ols.filter
    (fun v => decide (rangeStart ≤ v) && decide (v < rangeEnd))).length
  let ivCount := (iv.filter
    (fun v => decide (rangeStart ≤ v) && decide (v < rangeEnd))).length
  { rangeStart := rangeStart
    rangeEnd := rangeEnd
    midpoint := (rangeStart + rangeEnd) / 2
    olsFrequency := if ols.length = 0 then 0 else (olsCount : ℚ) / ols.length
    ivFrequency := if iv.length = 0 then 0 else (ivCount : ℚ) / iv.length }

/-- `createHistogramData` (lines 195-228): empty output for an empty merged
input, else one `histBin` per index `0 ≤ i < bins`. -/
def createHistogramData (ols iv : List ℚ) (bins : ℕ := 40) : List BinData :=
  if (ols ++ iv).length = 0 then []
  else (List.range bins).map (histBin ols iv bins)

/-- Analytic parameters all returning 0, used by concrete evaluations. -/
def ops0 : Analytic :=
  ⟨fun _ => 0, fun _ => 0, fun _ => 0, fun _ => 0, 0⟩

/-- Tiny concrete parameter set for witnesses: one observation, one
replication, seed 0. -/
def p1 : SimulationParams :=
  ⟨1, 1, 1 / 2, 0, 0, 0⟩

/-- Concrete parameter set with two replications (batch size 10 applies
since `sampleSize = 0 ≤ 10000`). -/
def p2 : SimulationParams :=
  ⟨0, 2, 0, 0, 0, 0⟩

/-- Concrete invalid configuration: `sampleSize = 0 < 2`,
`replications = 0 < 1`, and `endogeneity = 2` outside `(-1, 1)`. -/
def pBad : SimulationParams :=
  ⟨0, 0, 0, 2, 0, 0⟩

/-- Default bin used by positional lookups into histogram output. -/
def binDefault : BinData := ⟨0, 0, 0, 0, 0⟩

/-- Decidable equality of run outcomes, for concrete evaluations. -/
instance : DecidableEq (Except RunError SimulationResult) := fun a b =>
  match a, b with
  | Except.error e1, Except.error e2 =>
    if h : e1 = e2 then Decidable.isTrue (by rw [h])
    else Decidable.isFalse (fun hh => by cases hh; exact h rfl)
  | Except.error _, Except.ok _ => Decidable.isFalse (fun hh => by cases hh)
  | Except.ok _, Except.error _ => Decidable.isFalse (fun hh => by cases hh)
  | Except.ok v1, Except.ok v2 =>
    if h : v1 = v2 then Decidable.isTrue (by rw [h])
    else Decidable.isFalse (fun hh => by cases hh; exact h rfl)

/-- Modelled from the spec: the centred cross-product sum
`Σ (aᵢ - mean a) * (bᵢ - mean b)` over `0 ≤ i < a.length`, the quantity the
spec calls the (sample) covariance of `a` and `b`.  Used to compare the
spec's description of `estimateIV` with the implementation. -/
def covSum (a b : List ℚ) : ℚ :=
  ((List.range a.length).map
    (fun i => (a.getD i 0 - mean a) * (b.getD i 0 - mean b))).sum

/-- Modelled from the spec: the 2nd-percentile position
`floor(0.02 * m)` of a length-`m` sequence, written with a real-number
floor as the spec states it. -/
def pctLoIdx (m : ℕ) : ℕ := Nat.floor ((m : ℚ) * (2 / 100))

/-- Modelled from the spec: the 98th-percentile position
`floor(0.98 * m)` of a length-`m` sequence. -/
def pctHiIdx (m : ℕ) : ℕ := Nat.floor ((m : ℚ) * (98 / 100))

/-! ### General list lemmas used by several claims -/

/-- Positional lookup into a `map` over `List.range`. -/
theorem getD_map_range {α : Type} (f : ℕ → α) (d : α) (B i : ℕ) (hi : i < B) :
    ((List.range B).map f).getD i d = f i := by
  rw [List.getD_eq_getElem?_getD, List.getElem?_map, List.getElem?_range hi]
  rfl

/-! ### C3: the IV estimator's degenerate-denominator guard -/

/-- C3: for equal-length sequences, `estimateIV` returns exactly 0 when the
magnitude of the centred cross-product sum of `z` and `x` is below `1e-9`
(regardless of `y`), and otherwise returns the ratio of the centred
cross-product sums, a total `ℚ` value (no infinity or NaN). -/
theorem estimateIV_degenerate_guard (x y z : List ℚ)
    (hy : y.length = x.length) (hz : z.length = x.length) :
    (|covSum z x| < 1 / 1000000000 → estimateIV x y z = 0) ∧
    (¬ |covSum z x| < 1 / 1000000000 →
      estimateIV x y z = covSum z y / covSum z x) := by
  have hden : ((List.range x.length).map
      (fun i => (z.getD i 0 - mean z) * (x.getD i 0 - mean x))).sum
        = covSum z x := by
    unfold covSum; rw [hz]
  have hnum : ((List.range x.length).map
      (fun i => (z.getD i 0 - mean z) * (y.getD i 0 - mean y))).sum
        = covSum z y := by
    unfold covSum; rw [hz]
  constructor
  · intro h
    simp only [estimateIV, hden]
    rw [if_pos h]
  · intro h
    simp only [estimateIV, hden, hnum]
    rw [if_neg h]

unseal Rat.add Rat.mul Rat.sub Rat.inv in
/-- Witness for C3 at `x = [1,2]`, `y = [0,3]`, `z = [4,4]`: the denominator
sum is 0, below threshold, and the estimator returns 0. -/
theorem estimateIV_degenerate_guard_witness :
    ([0, 3] : List ℚ).length = ([1, 2] : List ℚ).length ∧
    ([4, 4] : List ℚ).length = ([1, 2] : List ℚ).length ∧
    |covSum [4, 4] [1, 2]| < 1 / 1000000000 ∧
    estimateIV [1, 2] [0, 3] [4, 4] = 0 :=
  ⟨by decide, by decide, by decide,
    (estimateIV_degenerate_guard [1, 2] [0, 3] [4, 4]
      (by decide) (by decide)).1 (by decide)⟩

/-! ### C8: histogram bin count and equal widths -/

/-- C8: `createHistogramData` on two empty sequences returns the empty
sequence; on a nonempty merged input with requested bin count `B` it returns
exactly `B` bins, all of equal width `rangeEnd - rangeStart`. -/
theorem histogram_bin_count_and_widths (ols iv : List ℚ) (B : ℕ) :
    createHistogramData [] [] B = [] ∧
    (ols ++ iv ≠ [] →
      (createHistogramData ols iv B).length = B ∧
      ∀ b1 ∈ createHistogramData ols iv B, ∀ b2 ∈ createHistogramData ols iv B,
        b1.rangeEnd - b1.rangeStart = b2.rangeEnd - b2.rangeStart) := by
  constructor
  · simp [createHistogramData]
  · intro hne
    have hm : ¬ ((ols ++ iv).length = 0) := by
      simpa [List.length_eq_zero] using hne
    have hwidth : ∀ b ∈ createHistogramData ols iv B,
        b.rangeEnd - b.rangeStart = histStep ols iv B := by
      intro b hb
      rw [createHistogramData, if_neg hm] at hb
      obtain ⟨i, hi, rfl⟩ := List.mem_map.mp hb
      simp only [histBin]
      ring
    refine ⟨?_, fun b1 hb1 b2 hb2 => ?_⟩
    · rw [createHistogramData, if_neg hm]
      simp
    · rw [hwidth b1 hb1, hwidth b2 hb2]

/-- Witness for C8 at `ols = [1]`, `iv = [2]`, `B = 3`. -/
theorem histogram_bin_count_and_widths_witness :
    (([1] : List ℚ) ++ [2] ≠ []) ∧ (createHistogramData [1] [2] 3).length = 3 :=
  ⟨by decide, ((histogram_bin_count_and_widths [1] [2] 3).2 (by decide)).1⟩

/-! ### Histogram range lemmas shared by C9 and C10 -/

/-- Sorting the merged list preserves its length. -/
theorem histSorted_length (ols iv : List ℚ) :
    (histSorted ols iv).length = (ols ++ iv).length :=
  List.length_insertionSort _ _

/-- Membership in the sorted merged list is membership in the merged list. -/
theorem histSorted_mem {ols iv : List ℚ} {a : ℚ} :
    a ∈ histSorted ols iv ↔ a ∈ ols ++ iv :=
  (List.perm_insertionSort _ _).mem_iff

/-- For a nonempty merged list both truncated percentile indices are
strictly in bounds, so the source's nullish fallback can never fire. -/
theorem hist_idx_lt (m : ℕ) (hm : m ≠ 0) :
    m * 2 / 100 < m ∧ m * 98 / 100 < m := by
  constructor <;> (apply Nat.div_lt_of_lt_mul; omega)

/-- The spec's real-valued `floor(0.02 * m)` agrees with the model's natural
division `m * 2 / 100`. -/
theorem pctLoIdx_eq (m : ℕ) : pctLoIdx m = m * 2 / 100 := by
  unfold pctLoIdx
  have h : ((m : ℚ) * (2 / 100)) = ((m * 2 : ℕ) : ℚ) / ((100 : ℕ) : ℚ) := by
    push_cast; ring
  rw [h, Nat.floor_div_nat, Nat.floor_natCast]

/-- The spec's real-valued `floor(0.98 * m)` agrees with the model's natural
division `m * 98 / 100`. -/
theorem pctHiIdx_eq (m : ℕ) : pctHiIdx m = m * 98 / 100 := by
  unfold pctHiIdx
  have h : ((m : ℚ) * (98 / 100)) = ((m * 98 : ℕ) : ℚ) / ((100 : ℕ) : ℚ) := by
    push_cast; ring
  rw [h, Nat.floor_div_nat, Nat.floor_natCast]

/-! ### C9: the histogram's covered range -/

/-- C9: for a nonempty merged input, the raw min/max are the elements of the
ascending sorted merged list at the truncated 2nd and 98th percentile
positions (both strictly in bounds, so they are genuine element accesses),
and every bin `i` spans
`[start + i*step, start + (i+1)*step)` where `start`/`stop` extend the raw
range by 10% of its width on each side and `step` divides the padded range
into `B` equal parts. -/
theorem histogram_range_spec (ols iv : List ℚ) (B : ℕ)
    (hne : ols ++ iv ≠ []) (hB : 0 < B) :
    pctLoIdx (ols ++ iv).length < (histSorted ols iv).length ∧
    pctHiIdx (ols ++ iv).length < (histSorted ols iv).length ∧
    histMin ols iv = (histSorted ols iv).getD (pctLoIdx (ols ++ iv).length) 0 ∧
    histMax ols iv = (histSorted ols iv).getD (pctHiIdx (ols ++ iv).length) 0 ∧
    (∀ i, i < B →
      ((createHistogramData ols iv B).getD i binDefault).rangeStart
        = (histMin ols iv - (histMax ols iv - histMin ols iv) * (1 / 10))
          + (i : ℚ) *
            (((histMax ols iv + (histMax ols iv - histMin ols iv) * (1 / 10))
              - (histMin ols iv - (histMax ols iv - histMin ols iv) * (1 / 10))) / B) ∧
      ((createHistogramData ols iv B).getD i binDefault).rangeEnd
        = (histMin ols iv - (histMax ols iv - histMin ols iv) * (1 / 10))
          + ((i : ℚ) + 1) *
            (((histMax ols iv + (histMax ols iv - histMin ols iv) * (1 / 10))
              - (histMin ols iv - (histMax ols iv - histMin ols iv) * (1 / 10))) / B)) := by
  have hm : (ols ++ iv).length ≠ 0 := by
    simpa [List.length_eq_zero] using hne
  have hlt := hist_idx_lt (ols ++ iv).length hm
  refine ⟨?_, ?_, ?_, ?_, ?_⟩
  · rw [pctLoIdx_eq, histSorted_length]; exact hlt.1
  · rw [pctHiIdx_eq, histSorted_length]; exact hlt.2
  · rw [histMin, pctLoIdx_eq, histSorted_length]
  · rw [histMax, pctHiIdx_eq, histSorted_length]
  · intro i hi
    have hnot : ¬((ols ++ iv).length = 0) := hm
    rw [createHistogramData, if_neg hnot, getD_map_range _ _ _ _ hi]
    constructor
    · simp only [histBin, histStep, histStop, histStart]
    · simp only [histBin, histStep, histStop, histStart]

/-- Witness for C9 at `ols = [1,2]`, `iv = []`, `B = 1`. -/
theorem histogram_range_spec_witness :
    (([1, 2] : List ℚ) ++ [] ≠ []) ∧ 0 < 1 ∧
    histMin [1, 2] []
      = (histSorted [1, 2] []).getD (pctLoIdx (([1, 2] : List ℚ) ++ []).length) 0 :=
  ⟨by decide, by decide,
    (histogram_range_spec [1, 2] [] 1 (by decide) (by decide)).2.2.1⟩

/-! ### C10: constant-valued estimates collapse every bin -/

/-- C10: if every merged estimate equals the same value `c` (and the merged
input is nonempty), the histogram still has the requested number of bins,
but every bin is zero-width with `rangeStart = rangeEnd = c` and all
frequencies are exactly 0: the whole probability mass is dropped. -/
theorem histogram_constant_collapse (ols iv : List ℚ) (B : ℕ) (c : ℚ)
    (hall : ∀ v ∈ ols ++ iv, v = c) (hne : ols ++ iv ≠ []) :
    (createHistogramData ols iv B).length = B ∧
    ∀ b ∈ createHistogramData ols iv B,
      b.rangeStart = c ∧ b.rangeEnd = c ∧
      b.olsFrequency = 0 ∧ b.ivFrequency = 0 := by
  have hm : (ols ++ iv).length ≠ 0 := by
    simpa [List.length_eq_zero] using hne
  have hlt := hist_idx_lt (ols ++ iv).length hm
  have hgetc : ∀ (idx : ℕ), idx < (ols ++ iv).length →
      (histSorted ols iv).getD idx 0 = c := by
    intro idx hidx
    have hidx' : idx < (histSorted ols iv).length := by
      rw [histSorted_length]; exact hidx
    rw [List.getD_eq_getElem?_getD, List.getElem?_eq_getElem hidx']
    exact hall _ (histSorted_mem.mp (List.getElem_mem hidx'))
  have hminc : histMin ols iv = c := by
    rw [histMin, histSorted_length]; exact hgetc _ hlt.1
  have hmaxc : histMax ols iv = c := by
    rw [histMax, histSorted_length]; exact hgetc _ hlt.2
  have hstart : histStart ols iv = c := by
    rw [histStart, hminc, hmaxc]; ring
  have hstep : histStep ols iv B = 0 := by
    rw [histStep, histStop, histStart, hminc, hmaxc]; ring
  constructor
  · rw [createHistogramData, if_neg hm]; simp
  · intro b hb
    rw [createHistogramData, if_neg hm] at hb
    obtain ⟨i, _, rfl⟩ := List.mem_map.mp hb
    have hrs : histStart ols iv + (i : ℚ) * histStep ols iv B = c := by
      rw [hstart, hstep]; ring
    have hre : histStart ols iv + ((i : ℚ) + 1) * histStep ols iv B = c := by
      rw [hstart, hstep]; ring
    have hfil : ∀ (l : List ℚ), (∀ v ∈ l, v ∈ ols ++ iv) →
        l.filter (fun v =>
          decide (histStart ols iv + (i : ℚ) * histStep ols iv B ≤ v) &&
          decide (v < histStart ols iv + ((i : ℚ) + 1) * histStep ols iv B)) = [] := by
      intro l hl
      rw [List.filter_eq_nil_iff]
      intro a ha
      have hac : a = c := hall _ (hl _ ha)
      simp only [Bool.and_eq_true, decide_eq_true_eq, not_and]
      intro _
      rw [hac, hre]
      exact lt_irrefl c
    refine ⟨?_, ?_, ?_, ?_⟩
    · simpa only [histBin] using hrs
    · simpa only [histBin] using hre
    · simp only [histBin]
      rw [hfil ols (fun v hv => List.mem_append.mpr (Or.inl hv))]
      simp
    · simp only [histBin]
      rw [hfil iv (fun v hv => List.mem_append.mpr (Or.inr hv))]
      simp

/-- Witness for C10 at `ols = [5,5]`, `iv = []`, `B = 2`. -/
theorem histogram_constant_collapse_witness :
    (∀ v ∈ ([5, 5] : List ℚ) ++ [], v = 5) ∧ (([5, 5] : List ℚ) ++ [] ≠ []) ∧
    (createHistogramData [5, 5] [] 2).length = 2 :=
  ⟨by decide, by decide,
    (histogram_constant_collapse [5, 5] [] 2 5 (by decide) (by decide)).1⟩

/-! ### Replication-loop lemmas shared by C1, C2, C4 and C5 -/

/-- The value of a completed loop does not depend on the abort schedule:
whatever two schedules allow both runs to complete, the collected estimate
triples coincide (the replication bodies consume the RNG identically). -/
theorem runLoop_ok_irrel (ops : Analytic) (p : SimulationParams) (b : ℕ)
    (a1 a2 : ℕ → Bool) :
    ∀ (fuel r : ℕ) (rng : SeededRNG) (t1 t2 : List ℚ × List ℚ × List ℚ),
      (runLoop ops p a1 b r fuel rng).1 = Except.ok t1 →
      (runLoop ops p a2 b r fuel rng).1 = Except.ok t2 → t1 = t2 := by
  intro fuel
  induction fuel with
  | zero =>
    intro r rng t1 t2 h1 h2
    exact (Except.ok.inj h1).symm.trans (Except.ok.inj h2)
  | succ n ih =>
    intro r rng t1 t2 h1 h2
    by_cases hb1 : a1 r = true
    · exact absurd h1 (by simp [runLoop, hb1])
    · by_cases hb2 : a2 r = true
      · exact absurd h2 (by simp [runLoop, hb2])
      · simp only [runLoop] at h1 h2
        rw [if_neg hb1] at h1
        rw [if_neg hb2] at h2
        rcases hr1 : (runLoop ops p a1 b (r + 1) n
            (runReplication ops p rng).2).1 with e1 | ⟨o1, i1, f1⟩
        · rw [hr1] at h1; simp at h1
        · rcases hr2 : (runLoop ops p a2 b (r + 1) n
              (runReplication ops p rng).2).1 with e2 | ⟨o2, i2, f2⟩
          · rw [hr2] at h2; simp at h2
          · rw [hr1] at h1
            rw [hr2] at h2
            have h3 := ih (r + 1) ((runReplication ops p rng).2)
              (o1, i1, f1) (o2, i2, f2) hr1 hr2
            injection h3 with ho hrest
            injection hrest with hi hf
            subst ho; subst hi; subst hf
            exact (Except.ok.inj h1).symm.trans (Except.ok.inj h2)

/-- If the schedule is aborted at any index reachable from `r` within the
remaining fuel, the loop terminates with the cancellation error. -/
theorem runLoop_abort_cancelled (ops : Analytic) (p : SimulationParams)
    (b : ℕ) (aborted : ℕ → Bool) :
    ∀ (fuel r : ℕ) (rng : SeededRNG),
      (∃ k, k < fuel ∧ aborted (r + k) = true) →
      (runLoop ops p aborted b r fuel rng).1
        = Except.error RunError.cancelled := by
  intro fuel
  induction fuel with
  | zero => rintro r rng ⟨k, hk, _⟩; omega
  | succ n ih =>
    rintro r rng ⟨k, hk, habk⟩
    by_cases hab : aborted r = true
    · simp [runLoop, hab]
    · have hk0 : k ≠ 0 := fun h0 => hab (by simpa [h0] using habk)
      have hrec := ih (r + 1) ((runReplication ops p rng).2)
        ⟨k - 1, by omega, by rw [show r + 1 + (k - 1) = r + k by omega]; exact habk⟩
      simp only [runLoop]
      rw [if_neg hab, hrec]

/-- A loop driven by a schedule that is never aborted always completes. -/
theorem runLoop_never_aborted_ok (ops : Analytic) (p : SimulationParams)
    (b : ℕ) (aborted : ℕ → Bool) (hno : ∀ k, aborted k = false) :
    ∀ (fuel r : ℕ) (rng : SeededRNG),
      ∃ t, (runLoop ops p aborted b r fuel rng).1 = Except.ok t := by
  intro fuel
  induction fuel with
  | zero => intro r rng; exact ⟨([], [], []), rfl⟩
  | succ n ih =>
    intro r rng
    obtain ⟨⟨o, i, f⟩, ht⟩ := ih (r + 1) ((runReplication ops p rng).2)
    refine ⟨((runReplication ops p rng).1.1 :: o,
             (runReplication ops p rng).1.2.1 :: i,
             (runReplication ops p rng).1.2.2 :: f), ?_⟩
    simp only [runLoop]
    rw [if_neg (by simp [hno r]), ht]

/-- The trace of one unfolding of the loop: an abort check first, then (when
not aborted) the batched yield/pause checkpoint, the completed replication,
and the remainder's trace. -/
theorem runLoop_trace_succ (ops : Analytic) (p : SimulationParams) (b : ℕ)
    (aborted : ℕ → Bool) (n r0 : ℕ) (rng : SeededRNG) :
    (runLoop ops p aborted b r0 (n + 1) rng).2
      = if aborted r0 = true then [Ev.checkAbort r0]
        else Ev.checkAbort r0 ::
          ((if r0 % b = 0 then [Ev.yieldPause r0] else []) ++
            Ev.replicate r0 ::
              (runLoop ops p aborted b (r0 + 1) n
                (runReplication ops p rng).2).2) := by
  by_cases hab : aborted r0 = true
  · simp [runLoop, hab]
  · rw [if_neg hab]
    simp only [runLoop]
    rw [if_neg hab]
    rcases hr : (runLoop ops p aborted b (r0 + 1) n
        (runReplication ops p rng).2).1 with e | ⟨o, i, f⟩ <;> rfl

/-- A yield/pause checkpoint can only occur at a batching boundary. -/
theorem runLoop_yield_batch (ops : Analytic) (p : SimulationParams) (b : ℕ)
    (aborted : ℕ → Bool) :
    ∀ (fuel r0 : ℕ) (rng : SeededRNG) (r : ℕ),
      Ev.yieldPause r ∈ (runLoop ops p aborted b r0 fuel rng).2 →
      r % b = 0 := by
  intro fuel
  induction fuel with
  | zero => intro r0 rng r h; simp [runLoop] at h
  | succ n ih =>
    intro r0 rng r h
    rw [runLoop_trace_succ] at h
    by_cases hab : aborted r0 = true
    · rw [if_pos hab] at h
      simp at h
    · rw [if_neg hab] at h
      simp only [List.mem_cons, List.mem_append] at h
      rcases h with h | h | h | h
      · exact absurd h (by simp)
      · by_cases hy : r0 % b = 0
        · rw [if_pos hy] at h
          simp at h
          rw [h]; exact hy
        · rw [if_neg hy] at h; simp at h
      · exact absurd h (by simp)
      · exact ih (r0 + 1) _ r h

/-- Every completed replication was preceded by its own abort check. -/
theorem runLoop_replicate_has_check (ops : Analytic) (p : SimulationParams)
    (b : ℕ) (aborted : ℕ → Bool) :
    ∀ (fuel r0 : ℕ) (rng : SeededRNG) (r : ℕ),
      Ev.replicate r ∈ (runLoop ops p aborted b r0 fuel rng).2 →
      Ev.checkAbort r ∈ (runLoop ops p aborted b r0 fuel rng).2 := by
  intro fuel
  induction fuel with
  | zero => intro r0 rng r h; simp [runLoop] at h
  | succ n ih =>
    intro r0 rng r h
    rw [runLoop_trace_succ] at h ⊢
    by_cases hab : aborted r0 = true
    · rw [if_pos hab] at h
      simp at h
    · rw [if_neg hab] at h
      rw [if_neg hab]
      simp only [List.mem_cons, List.mem_append] at h ⊢
      rcases h with h | h | h | h
      · exact absurd h (by simp)
      · by_cases hy : r0 % b = 0
        · rw [if_pos hy] at h; simp at h
        · rw [if_neg hy] at h; simp at h
      · have hr : r = r0 := by
          injection h
        exact Or.inl (by rw [hr])
      · exact Or.inr (Or.inr (Or.inr (ih (r0 + 1) _ r h)))

/-- If an abort check at index `r` observed `false`, replication `r` ran to
completion: cancellation is never honored mid-replication. -/
theorem runLoop_check_then_replicate (ops : Analytic) (p : SimulationParams)
    (b : ℕ) (aborted : ℕ → Bool) :
    ∀ (fuel r0 : ℕ) (rng : SeededRNG) (r : ℕ),
      Ev.checkAbort r ∈ (runLoop ops p aborted b r0 fuel rng).2 →
      aborted r = false →
      Ev.replicate r ∈ (runLoop ops p aborted b r0 fuel rng).2 := by
  intro fuel
  induction fuel with
  | zero => intro r0 rng r h; simp [runLoop] at h
  | succ n ih =>
    intro r0 rng r h hf
    rw [runLoop_trace_succ] at h ⊢
    by_cases hab : aborted r0 = true
    · rw [if_pos hab] at h
      simp at h
      rw [h] at hf
      exact absurd hab (by simp [hf])
    · rw [if_neg hab] at h
      rw [if_neg hab]
      simp only [List.mem_cons, List.mem_append] at h ⊢
      rcases h with h | h | h | h
      · have hr : r = r0 := by
          injection h
        exact Or.inr (Or.inr (Or.inl (by rw [hr])))
      · by_cases hy : r0 % b = 0
        · rw [if_pos hy] at h; simp at h
        · rw [if_neg hy] at h; simp at h
      · exact absurd h (by simp)
      · exact Or.inr (Or.inr (Or.inr (ih (r0 + 1) _ r h hf)))

/-- The event trace of a run is the trace of its loop. -/
theorem run_trace (ops : Analytic) (p : SimulationParams)
    (aborted : ℕ → Bool) :
    (runMonteCarloAsync ops p aborted).2
      = (runLoop ops p aborted (if p.sampleSize > 10000 then 1 else 10)
          0 p.replications ⟨p.seed⟩).2 := by
  simp only [runMonteCarloAsync]
  rcases hr : (runLoop ops p aborted (if p.sampleSize > 10000 then 1 else 10)
      0 p.replications ⟨p.seed⟩).1 with e | ⟨o, i, f⟩ <;> rfl

/-! ### C1: determinism of completed runs -/

/-- C1: two invocations of the driver with the same params (hence the same
seed) that both complete without cancellation — under any two abort
schedules — produce identical `SimulationResult` values: identical estimate,
IV and F-statistic sequences and identical bias/variance scalars. -/
theorem run_deterministic (ops : Analytic) (p : SimulationParams)
    (a1 a2 : ℕ → Bool) (res1 res2 : SimulationResult)
    (h1 : (runMonteCarloAsync ops p a1).1 = Except.ok res1)
    (h2 : (runMonteCarloAsync ops p a2).1 = Except.ok res2) :
    res1 = res2 := by
  simp only [runMonteCarloAsync] at h1 h2
  rcases hr1 : (runLoop ops p a1 (if p.sampleSize > 10000 then 1 else 10)
      0 p.replications ⟨p.seed⟩).1 with e1 | ⟨o1, i1, f1⟩
  · rw [hr1] at h1; simp at h1
  · rcases hr2 : (runLoop ops p a2 (if p.sampleSize > 10000 then 1 else 10)
        0 p.replications ⟨p.seed⟩).1 with e2 | ⟨o2, i2, f2⟩
    · rw [hr2] at h2; simp at h2
    · rw [hr1] at h1
      rw [hr2] at h2
      have h3 := runLoop_ok_irrel ops p (if p.sampleSize > 10000 then 1 else 10)
        a1 a2 p.replications 0 ⟨p.seed⟩ (o1, i1, f1) (o2, i2, f2) hr1 hr2
      injection h3 with ho hrest
      injection hrest with hi hf
      subst ho; subst hi; subst hf
      exact (Except.ok.inj h1).symm.trans (Except.ok.inj h2)

unseal Rat.add Rat.mul Rat.sub Rat.inv in
/-- Witness for C1 at `p1` under two schedules that both let the single
replication complete. -/
theorem run_deterministic_witness :
    (runMonteCarloAsync ops0 p1 (fun _ => false)).1
        = Except.ok ⟨[0], [0], [0], 0, 0, 0, 0⟩ ∧
    (runMonteCarloAsync ops0 p1 (fun r => decide (0 < r))).1
        = Except.ok ⟨[0], [0], [0], 0, 0, 0, 0⟩ ∧
    (⟨[0], [0], [0], 0, 0, 0, 0⟩ : SimulationResult)
        = ⟨[0], [0], [0], 0, 0, 0, 0⟩ :=
  ⟨by decide, by decide,
    run_deterministic ops0 p1 (fun _ => false) (fun r => decide (0 < r))
      ⟨[0], [0], [0], 0, 0, 0, 0⟩ ⟨[0], [0], [0], 0, 0, 0, 0⟩
      (by decide) (by decide)⟩

/-! ### C4: cancellation discards all progress -/

/-- C4: if the abort signal is observed set at any replication index below
`replications`, the run terminates with the distinct cancellation outcome;
the error value carries no `SimulationResult`, partial or otherwise. -/
theorem run_cancelled_no_result (ops : Analytic) (p : SimulationParams)
    (aborted : ℕ → Bool)
    (h : ∃ r, r < p.replications ∧ aborted r = true) :
    (runMonteCarloAsync ops p aborted).1
      = Except.error RunError.cancelled := by
  obtain ⟨r, hr, hab⟩ := h
  have hloop := runLoop_abort_cancelled ops p
    (if p.sampleSize > 10000 then 1 else 10) aborted p.replications 0 ⟨p.seed⟩
    ⟨r, hr, by rw [Nat.zero_add]; exact hab⟩
  simp only [runMonteCarloAsync]
  rw [hloop]

/-- Witness for C4: a schedule aborted from the start cancels the run. -/
theorem run_cancelled_no_result_witness :
    (∃ r, r < p1.replications ∧ (fun (_ : ℕ) => true) r = true) ∧
    (runMonteCarloAsync ops0 p1 (fun _ => true)).1
      = Except.error RunError.cancelled :=
  ⟨⟨0, by decide, rfl⟩,
    run_cancelled_no_result ops0 p1 (fun _ => true) ⟨0, by decide, rfl⟩⟩

/-! ### C2: the claimed configuration validation does not exist -/

unseal Rat.add Rat.mul Rat.sub Rat.inv in
/-- Counterexample to C2 as stated: at the invalid configuration `pBad`
(`sampleSize = 0 < 2`, `replications = 0 < 1`, `endogeneity = 2` outside
`(-1,1)`) the driver does not reject: it completes normally and returns a
`SimulationResult` (with empty sequences).  The source throws only
`'Simulation Cancelled'`, so no configuration-error outcome even exists; in
the `ℚ` model the division-by-zero summary statistics are 0 where the
JavaScript code would produce NaN, but either way a result object is
produced instead of an eager descriptive error. -/
theorem config_error_not_raised :
    (runMonteCarloAsync ops0 pBad (fun _ => false)).1
      = Except.ok ⟨[], [], [], 0, 0, 0, 0⟩ := by decide

/-- C2 (amended): the driver performs no configuration validation: even for
parameters that violate the documented preconditions (sample size < 2,
replication count < 1, or ρ outside (−1,1)), a run that is never aborted
completes and returns a `SimulationResult` rather than rejecting. -/
theorem no_config_validation (ops : Analytic) (p : SimulationParams)
    (hbad : p.sampleSize < 2 ∨ p.replications < 1 ∨
      ¬(-1 < p.endogeneity ∧ p.endogeneity < 1)) :
    ∃ res, (runMonteCarloAsync ops p (fun _ => false)).1 = Except.ok res := by
  obtain ⟨⟨o, i, f⟩, ht⟩ := runLoop_never_aborted_ok ops p
    (if p.sampleSize > 10000 then 1 else 10) (fun _ => false) (fun _ => rfl)
    p.replications 0 ⟨p.seed⟩
  refine ⟨{ olsEstimates := o, ivEstimates := i, fStats := f,
            olsBias := mean o - p.betaTrue, ivBias := mean i - p.betaTrue,
            olsVariance := variance o, ivVariance := variance i }, ?_⟩
  simp only [runMonteCarloAsync]
  rw [ht]

/-- Witness for the amended C2 at the concrete invalid configuration
`pBad`. -/
theorem no_config_validation_witness :
    (pBad.sampleSize < 2 ∨ pBad.replications < 1 ∨
      ¬(-1 < pBad.endogeneity ∧ pBad.endogeneity < 1)) ∧
    ∃ res, (runMonteCarloAsync ops0 pBad (fun _ => false)).1 = Except.ok res :=
  ⟨Or.inl (by decide), no_config_validation ops0 pBad (Or.inl (by decide))⟩

/-! ### C5: how often the cancellation token is checked -/

/-- Counterexample to C5 as stated: with `sampleSize = 0 ≤ 10000` the
claimed batch size is `K = 10`, yet in a two-replication run the abort
signal is checked at replication index 1, which is not a batching boundary:
the signal is checked every replication, not once per `K` replications. -/
theorem cancellation_check_not_batched :
    Ev.checkAbort 1 ∈ (runMonteCarloAsync ops0 p2 (fun _ => false)).2 ∧
    ¬(1 % 10 = 0) := by decide

/-- C5 (amended): the abort signal is checked once per replication, at the
top of every loop iteration, not once per batching boundary; only the
yield/pause checkpoint is batched, occurring solely at indices divisible by
`K` where `K = 1` when `sampleSize > 10000` and `K = 10` otherwise; and a
replication whose abort check observed `false` always runs to completion
(its three statistics are appended) before any cancellation can be
honored. -/
theorem cancellation_checked_every_replication (ops : Analytic)
    (p : SimulationParams) (aborted : ℕ → Bool) :
    (∀ r, Ev.yieldPause r ∈ (runMonteCarloAsync ops p aborted).2 →
      r % (if p.sampleSize > 10000 then 1 else 10) = 0) ∧
    (∀ r, Ev.replicate r ∈ (runMonteCarloAsync ops p aborted).2 →
      Ev.checkAbort r ∈ (runMonteCarloAsync ops p aborted).2) ∧
    (∀ r, Ev.checkAbort r ∈ (runMonteCarloAsync ops p aborted).2 →
      aborted r = false →
      Ev.replicate r ∈ (runMonteCarloAsync ops p aborted).2) := by
  rw [run_trace]
  exact ⟨fun r h => runLoop_yield_batch ops p _ aborted p.replications 0 ⟨p.seed⟩ r h,
    fun r h => runLoop_replicate_has_check ops p _ aborted p.replications 0 ⟨p.seed⟩ r h,
    fun r h hf => runLoop_check_then_replicate ops p _ aborted p.replications 0 ⟨p.seed⟩ r h hf⟩

/-- Witness for the amended C5: in the concrete two-replication run the
abort check at index 1 observed `false`, and replication 1 indeed
completed. -/
theorem cancellation_checked_every_replication_witness :
    Ev.checkAbort 1 ∈ (runMonteCarloAsync ops0 p2 (fun _ => false)).2 ∧
    Ev.replicate 1 ∈ (runMonteCarloAsync ops0 p2 (fun _ => false)).2 :=
  ⟨by decide,
    (cancellation_checked_every_replication ops0 p2 (fun _ => false)).2.2 1
      (by decide) rfl⟩

/-! ### Sample-generation lemmas shared by C6 and C7 -/

/-- Both lists returned by the correlated normal generator have length
`n`. -/
theorem generateCorrelatedNormals_length (ops : Analytic) (rho : ℚ) :
    ∀ (n : ℕ) (rng : SeededRNG),
      (generateCorrelatedNormals ops rho n rng).1.1.length = n ∧
      (generateCorrelatedNormals ops rho n rng).1.2.length = n := by
  intro n
  induction n with
  | zero => intro rng; simp [generateCorrelatedNormals]
  | succ m ih =>
    intro rng
    have h := ih rng.next.1.next.1
    simp [generateCorrelatedNormals, h.1, h.2]

/-- Pointwise description of `zipWith` under positional lookup. -/
theorem getD_zipWith (f : ℚ → ℚ → ℚ) :
    ∀ (l1 l2 : List ℚ) (i : ℕ), i < l1.length → i < l2.length →
      (List.zipWith f l1 l2).getD i 0 = f (l1.getD i 0) (l2.getD i 0) := by
  intro l1
  induction l1 with
  | nil => intro l2 i h1 _; simp at h1
  | cons a t ih =>
    intro l2 i h1 h2
    cases l2 with
    | nil => simp at h2
    | cons b t2 =>
      cases i with
      | zero => rfl
      | succ j =>
        simp only [List.zipWith_cons_cons, List.getD_cons_succ]
        exact ih t2 j (by simpa using h1) (by simpa using h2)

/-- Pointwise description of `map` under positional lookup. -/
theorem getD_map (g : ℚ → ℚ) :
    ∀ (l : List ℚ) (i : ℕ), i < l.length →
      (l.map g).getD i 0 = g (l.getD i 0) := by
  intro l
  induction l with
  | nil => intro i h; simp at h
  | cons a t ih =>
    intro i h
    cases i with
    | zero => rfl
    | succ j =>
      simp only [List.map_cons, List.getD_cons_succ]
      exact ih j (by simpa using h)

/-- All three lists of a generated sample have length `sampleSize`. -/
theorem makeSample_lengths (ops : Analytic) (p : SimulationParams)
    (rng : SeededRNG) :
    (makeSample ops p rng).1.1.length = p.sampleSize ∧
    (makeSample ops p rng).1.2.1.length = p.sampleSize ∧
    (makeSample ops p rng).1.2.2.length = p.sampleSize := by
  have h1 := generateCorrelatedNormals_length ops p.endogeneity p.sampleSize rng
  have h2 := generateCorrelatedNormals_length ops 0 p.sampleSize
    (generateCorrelatedNormals ops p.endogeneity p.sampleSize rng).2
  simp only [makeSample]
  refine ⟨h2.1, ?_, ?_⟩
  · rw [List.length_zipWith, h2.1, h1.2]; simp
  · rw [List.length_zipWith, List.length_zipWith, h2.1, h1.2, h1.1]; simp

/-! ### C6: structure of the generated sample -/

/-- C6: in a replication's sample, `x_i = π·z_i + v_i` and
`y_i = β·x_i + u_i` for every `i < sampleSize`, where `(u, v)` are the two
lists of the first generator call with the configured ρ, and `z` is the
first list of a second call with ρ = 0 (its second list is discarded). -/
theorem sample_structure (ops : Analytic) (p : SimulationParams)
    (rng : SeededRNG) (i : ℕ) (hi : i < p.sampleSize) :
    (makeSample ops p rng).1.2.1.getD i 0
      = p.ivStrength
          * (generateCorrelatedNormals ops 0 p.sampleSize
              (generateCorrelatedNormals ops p.endogeneity
                p.sampleSize rng).2).1.1.getD i 0
        + (generateCorrelatedNormals ops p.endogeneity
            p.sampleSize rng).1.2.getD i 0 ∧
    (makeSample ops p rng).1.2.2.getD i 0
      = p.betaTrue * (makeSample ops p rng).1.2.1.getD i 0
        + (generateCorrelatedNormals ops p.endogeneity
            p.sampleSize rng).1.1.getD i 0 := by
  have hu := generateCorrelatedNormals_length ops p.endogeneity p.sampleSize rng
  have hz := generateCorrelatedNormals_length ops 0 p.sampleSize
    (generateCorrelatedNormals ops p.endogeneity p.sampleSize rng).2
  have hx : (makeSample ops p rng).1.2.1.length = p.sampleSize :=
    (makeSample_lengths ops p rng).2.1
  constructor
  · simp only [makeSample]
    exact getD_zipWith _ _ _ i (by rw [hz.1]; exact hi) (by rw [hu.2]; exact hi)
  · have h := getD_zipWith (fun xi ui => p.betaTrue * xi + ui)
      (makeSample ops p rng).1.2.1
      (generateCorrelatedNormals ops p.endogeneity p.sampleSize rng).1.1
      i (by rw [hx]; exact hi) (by rw [hu.1]; exact hi)
    simpa only [makeSample] using h

/-- Witness for C6 at `ops0`, `p1` (one observation), seed state 0,
index 0. -/
theorem sample_structure_witness :
    0 < p1.sampleSize ∧
    ((makeSample ops0 p1 ⟨0⟩).1.2.1.getD 0 0
      = p1.ivStrength
          * (generateCorrelatedNormals ops0 0 p1.sampleSize
              (generateCorrelatedNormals ops0 p1.endogeneity
                p1.sampleSize ⟨0⟩).2).1.1.getD 0 0
        + (generateCorrelatedNormals ops0 p1.endogeneity
            p1.sampleSize ⟨0⟩).1.2.getD 0 0 ∧
     (makeSample ops0 p1 ⟨0⟩).1.2.2.getD 0 0
      = p1.betaTrue * (makeSample ops0 p1 ⟨0⟩).1.2.1.getD 0 0
        + (generateCorrelatedNormals ops0 p1.endogeneity
            p1.sampleSize ⟨0⟩).1.1.getD 0 0) :=
  ⟨by decide, sample_structure ops0 p1 ⟨0⟩ 0 (by decide)⟩

/-! ### C7: the first-stage F-statistic formula -/

/-- Sums over a mapped `zipWith` rewritten as index sums. -/
theorem sum_map_zipWith (f : ℚ → ℚ → ℚ) (g : ℚ → ℚ) :
    ∀ (l1 l2 : List ℚ), l1.length = l2.length →
      ((List.zipWith f l1 l2).map g).sum
        = ((List.range l1.length).map
            (fun i => g (f (l1.getD i 0) (l2.getD i 0)))).sum := by
  intro l1
  induction l1 with
  | nil => intro l2 _; simp
  | cons a t ih =>
    intro l2 h
    cases l2 with
    | nil => simp at h
    | cons b t2 =>
      have ht : t.length = t2.length := by simpa using h
      simp only [List.zipWith_cons_cons, List.map_cons, List.sum_cons,
        List.length_cons, List.range_succ_eq_map, List.map_map]
      rw [ih t2 ht]
      rfl

/-- C7: the F-statistic of every replication equals
`R²·(n−2)/(1−R²)` with `π̂` the OLS slope of `x` on `z`,
`SSR = Σ (x_i − π̂·z_i)²`, `SST = variance(x)·n` and `R² = 1 − SSR/SST`,
with no guard on the `(1−R²)` denominator. -/
theorem firstStage_formula (ops : Analytic) (p : SimulationParams)
    (rng : SeededRNG) (piHat ssr sst r2 : ℚ)
    (hpi : piHat = estimateOLS (makeSample ops p rng).1.1
      (makeSample ops p rng).1.2.1)
    (hssr : ssr = ((List.range (makeSample ops p rng).1.2.1.length).map
        (fun i => ((makeSample ops p rng).1.2.1.getD i 0
          - piHat * (makeSample ops p rng).1.1.getD i 0) ^ 2)).sum)
    (hsst : sst = variance (makeSample ops p rng).1.2.1 * p.sampleSize)
    (hr2 : r2 = 1 - ssr / sst) :
    (runReplication ops p rng).1.2.2
      = r2 * ((p.sampleSize : ℚ) - 2) / (1 - r2) := by
  subst hr2 hsst hssr hpi
  have hlen : (makeSample ops p rng).1.2.1.length
      = ((makeSample ops p rng).1.1.map
          (fun val => estimateOLS (makeSample ops p rng).1.1
            (makeSample ops p rng).1.2.1 * val)).length := by
    rw [List.length_map, (makeSample_lengths ops p rng).2.1,
      (makeSample_lengths ops p rng).1]
  have hkey : ((List.zipWith (fun val pr => val - pr)
        (makeSample ops p rng).1.2.1
        ((makeSample ops p rng).1.1.map
          (fun val => estimateOLS (makeSample ops p rng).1.1
            (makeSample ops p rng).1.2.1 * val))).map
          (fun val => val * val)).sum
      = ((List.range (makeSample ops p rng).1.2.1.length).map
          (fun i => ((makeSample ops p rng).1.2.1.getD i 0
            - estimateOLS (makeSample ops p rng).1.1
                (makeSample ops p rng).1.2.1
              * (makeSample ops p rng).1.1.getD i 0) ^ 2)).sum := by
    rw [sum_map_zipWith _ _ _ _ hlen]
    have hcongr : ∀ i ∈ List.range (makeSample ops p rng).1.2.1.length,
        ((makeSample ops p rng).1.2.1.getD i 0
            - ((makeSample ops p rng).1.1.map
                (fun val => estimateOLS (makeSample ops p rng).1.1
                  (makeSample ops p rng).1.2.1 * val)).getD i 0)
          * ((makeSample ops p rng).1.2.1.getD i 0
            - ((makeSample ops p rng).1.1.map
                (fun val => estimateOLS (makeSample ops p rng).1.1
                  (makeSample ops p rng).1.2.1 * val)).getD i 0)
        = ((makeSample ops p rng).1.2.1.getD i 0
            - estimateOLS (makeSample ops p rng).1.1
                (makeSample ops p rng).1.2.1
              * (makeSample ops p rng).1.1.getD i 0) ^ 2 := by
      intro i hi
      have hi' : i < (makeSample ops p rng).1.1.length := by
        rw [(makeSample_lengths ops p rng).1,
          ← (makeSample_lengths ops p rng).2.1]
        exact List.mem_range.mp hi
      rw [getD_map _ _ i hi']
      ring
    exact congrArg List.sum (List.map_congr_left hcongr)
  simp only [runReplication]
  rw [hkey]

unseal Rat.add Rat.mul Rat.sub Rat.inv in
/-- Witness for C7 at `ops0`, `p1`, seed state 0: there `π̂ = 0`, `SSR = 0`,
`SST = 0` and `R² = 1`. -/
theorem firstStage_formula_witness :
    ((0 : ℚ) = estimateOLS (makeSample ops0 p1 ⟨0⟩).1.1
      (makeSample ops0 p1 ⟨0⟩).1.2.1) ∧
    ((0 : ℚ) = ((List.range (makeSample ops0 p1 ⟨0⟩).1.2.1.length).map
        (fun i => ((makeSample ops0 p1 ⟨0⟩).1.2.1.getD i 0
          - 0 * (makeSample ops0 p1 ⟨0⟩).1.1.getD i 0) ^ 2)).sum) ∧
    ((0 : ℚ) = variance (makeSample ops0 p1 ⟨0⟩).1.2.1 * p1.sampleSize) ∧
    ((1 : ℚ) = 1 - 0 / 0) ∧
    (runReplication ops0 p1 ⟨0⟩).1.2.2
      = 1 * ((p1.sampleSize : ℚ) - 2) / (1 - 1) :=
  ⟨by decide, by decide, by decide, by decide,
    firstStage_formula ops0 p1 ⟨0⟩ 0 0 0 1
      (by decide) (by decide) (by decide) (by decide)⟩

end WeakIV
